import Mathlib

/-!
Verification of the numerical-programming repository's matrix-norm core.

The Python sources (`matrix_operations.py`, `matrix_norms.py`) are shallowly
embedded below.  A matrix is a list of rows; Python floats are modelled as
real numbers; Python list indexing that is always in bounds on rectangular
input is modelled with `List.getD`; fallible functions return `Except`.
The numpy eigenvalue routine `np.linalg.eigvals` is an external primitive,
so `compute_eigenvalues` and `two_norm` are parameterised by a `solver`
function standing for it; theorems that depend on the values the solver
returns carry an explicit hypothesis describing that output.
-/

namespace NumLib

/-- A matrix as in the source: an ordered sequence of rows. -/
abbrev Mat (α : Type) := List (List α)

/-- `ent m i j` models the Python expression `m[i][j]` at indices that are in
bounds (out-of-bounds reads default to `0`; every theorem below only relies on
in-bounds entries). -/
def ent {α : Type} [Zero α] (m : Mat α) (i j : Nat) : α :=
  (m.getD i []).getD j 0

/-- The data-model invariant: all rows have equal length (rectangular). -/
def Rect {α : Type} (m : Mat α) : Prop :=
  ∀ r ∈ m, r.length = (m.headD []).length

instance {α : Type} (m : Mat α) : Decidable (Rect m) :=
  List.decidableBAll _ m

/-- Python exceptions that the embedded functions can raise. -/
inductive PyErr where
  /-- `IndexError` (e.g. `shape[1]` on a 1-d numpy shape tuple). -/
  | indexError : PyErr
  /-- `ValueError("The matrix must be square ...")`. -/
  | shapeError : PyErr
  /-- `ValueError` from `max()` applied to an empty sequence. -/
  | emptyMaxError : PyErr
deriving DecidableEq

/-- Python's `max` on a list: `none` models the `ValueError` on an empty
sequence, otherwise the maximum. -/
def listMax {α : Type} [LinearOrder α] : List α → Option α
  | [] => none
  | x :: xs => some (xs.foldl max x)

/-- `transpose` from `matrix_operations.py`:
`if not matrix or not matrix[0]: return []`, otherwise the C×R matrix with
`transposed[j][i] = matrix[i][j]`. -/
def transpose {α : Type} [Zero α] (matrix : Mat α) : Mat α :=
  if matrix.length = 0 ∨ (matrix.headD []).length = 0 then []
  else
    (List.range (matrix.headD []).length).map fun j =>
      (List.range matrix.length).map fun i => ent matrix i j

/-- `matrix_multiply` from `matrix_operations.py`:
returns `[]` if either input is the empty list or the inner dimensions
(`len(matrix1[0])` vs `len(matrix2)`) differ, otherwise the R1×C2 matrix of
inner-product sums. -/
def matrix_multiply {α : Type} [Zero α] [Add α] [Mul α]
    (matrix1 matrix2 : Mat α) : Mat α :=
  if matrix1.length = 0 ∨ matrix2.length = 0 then []
  else if (matrix1.headD []).length ≠ matrix2.length then []
  else
    (List.range matrix1.length).map fun i =>
      (List.range (matrix2.headD []).length).map fun j =>
        ((List.range (matrix1.headD []).length).map fun k =>
          ent matrix1 i k * ent matrix2 k j).sum

/-- `column_sums` from `matrix_operations.py`: `[]` on empty input, otherwise
the per-column sums of absolute values. -/
def column_sums {α : Type} [LinearOrderedRing α] (matrix : Mat α) : List α :=
  if matrix.length = 0 ∨ (matrix.headD []).length = 0 then []
  else
    (List.range (matrix.headD []).length).map fun j =>
      (matrix.map fun row => |row.getD j 0|).sum

/-- `row_sums` from `matrix_operations.py`: `[]` on empty input, otherwise the
per-row sums of absolute values. -/
def row_sums {α : Type} [LinearOrderedRing α] (matrix : Mat α) : List α :=
  if matrix.length = 0 ∨ (matrix.headD []).length = 0 then []
  else matrix.map fun row => (row.map fun x => |x|).sum

/-- `compute_eigenvalues` from `matrix_operations.py`.  `np.array(matrix)` of
the empty list has shape `(0,)`, so the squareness check `shape[0] != shape[1]`
itself raises an `IndexError` there; a non-empty rectangular matrix has shape
`(len(matrix), len(matrix[0]))`, and the mismatch raises the "must be square"
`ValueError`; otherwise the external numpy routine (the `solver` parameter)
supplies the eigenvalues. -/
def compute_eigenvalues (solver : Mat ℝ → List ℝ) (matrix : Mat ℝ) :
    Except PyErr (List ℝ) :=
  if matrix.length = 0 then .error .indexError
  else if matrix.length = (matrix.headD []).length then .ok (solver matrix)
  else .error .shapeError

/-- `one_norm` from `matrix_norms.py`: `max(column_sums(matrix))`. -/
def one_norm {α : Type} [LinearOrderedRing α] (matrix : Mat α) : Except PyErr α :=
  match listMax (column_sums matrix) with
  | none => .error .emptyMaxError
  | some v => .ok v

/-- `infinity_norm` from `matrix_norms.py`: `max(row_sums(matrix))`. -/
def infinity_norm {α : Type} [LinearOrderedRing α] (matrix : Mat α) : Except PyErr α :=
  match listMax (row_sums matrix) with
  | none => .error .emptyMaxError
  | some v => .ok v

/-- `max_norm` from `matrix_norms.py`:
`max(abs(element) for row in matrix for element in row)`. -/
def max_norm {α : Type} [LinearOrderedRing α] (matrix : Mat α) : Except PyErr α :=
  match listMax ((matrix.flatten).map fun x => |x|) with
  | none => .error .emptyMaxError
  | some v => .ok v

/-- `two_norm` from `matrix_norms.py`: transpose, multiply with the original,
take the eigenvalues of the product, return
`max(abs(x) for x in eigenvalues) ** 0.5` (noncomputable only because the
mathematical square root on `ℝ` is; it models the float `** 0.5`). -/
noncomputable def two_norm (solver : Mat ℝ → List ℝ) (matrix : Mat ℝ) :
    Except PyErr ℝ :=
  let transposed_matrix := transpose matrix
  let matrix_product := matrix_multiply transposed_matrix matrix
  match compute_eigenvalues solver matrix_product with
  | .error e => .error e
  | .ok eigenvalues =>
    match listMax (eigenvalues.map fun x => |x|) with
    | none => .error .emptyMaxError
    | some m => .ok (Real.sqrt m)

/-! ### Helper lemmas about the embedded operations -/

theorem foldl_max_spec {α : Type} [LinearOrder α] (xs : List α) (a : α) :
    a ≤ xs.foldl max a ∧ (xs.foldl max a = a ∨ xs.foldl max a ∈ xs) ∧
      ∀ x ∈ xs, x ≤ xs.foldl max a := by
  induction xs generalizing a with
  | nil => simp
  | cons y ys ih =>
    simp only [List.foldl_cons, List.mem_cons]
    obtain ⟨h1, h2, h3⟩ := ih (max a y)
    refine ⟨le_trans (le_max_left a y) h1, ?_, ?_⟩
    · rcases h2 with h | h
      · rcases max_choice a y with hm | hm
        · left; rw [h, hm]
        · right; left; rw [h, hm]
      · right; right; exact h
    · rintro x (rfl | hx)
      · exact le_trans (le_max_right a x) h1
      · exact h3 x hx

theorem listMax_spec {α : Type} [LinearOrder α] (l : List α) (hl : l ≠ []) :
    ∃ m, listMax l = some m ∧ m ∈ l ∧ ∀ x ∈ l, x ≤ m := by
  match l with
  | [] => exact absurd rfl hl
  | x :: xs =>
    obtain ⟨h1, h2, h3⟩ := foldl_max_spec xs x
    refine ⟨xs.foldl max x, rfl, ?_, ?_⟩
    · rcases h2 with h | h
      · rw [h]; exact List.mem_cons_self x xs
      · exact List.mem_cons_of_mem x h
    · intro y hy
      rcases List.mem_cons.mp hy with rfl | hy'
      · exact h1
      · exact h3 y hy'

theorem getD_map_range {β : Type} (f : ℕ → β) (n i : ℕ) (d : β) (h : i < n) :
    ((List.range n).map f).getD i d = f i := by
  rw [List.getD_eq_getElem?_getD, List.getElem?_map, List.getElem?_range h]
  rfl

theorem headD_map_range {β : Type} (f : ℕ → β) (n : ℕ) (d : β) (h : n ≠ 0) :
    ((List.range n).map f).headD d = f 0 := by
  cases n with
  | zero => exact absurd rfl h
  | succ n => rw [List.range_succ_eq_map]; rfl

theorem ent_map_range {α : Type} [Zero α] (f : ℕ → List α) (n i j : ℕ)
    (hi : i < n) : ent ((List.range n).map f) i j = (f i).getD j 0 := by
  unfold ent
  rw [getD_map_range f n i [] hi]

theorem transpose_of_nonempty {α : Type} [Zero α] (m : Mat α)
    (h1 : m.length ≠ 0) (h2 : (m.headD []).length ≠ 0) :
    transpose m = (List.range (m.headD []).length).map fun j =>
      (List.range m.length).map fun i => ent m i j := by
  unfold transpose
  rw [if_neg]
  push_neg
  exact ⟨h1, h2⟩

theorem transpose_empty {α : Type} [Zero α] (m : Mat α)
    (h : m.length = 0 ∨ (m.headD []).length = 0) : transpose m = [] :=
  if_pos h

theorem transpose_length {α : Type} [Zero α] (m : Mat α)
    (h1 : m.length ≠ 0) (h2 : (m.headD []).length ≠ 0) :
    (transpose m).length = (m.headD []).length := by
  rw [transpose_of_nonempty m h1 h2, List.length_map, List.length_range]

theorem transpose_row_length {α : Type} [Zero α] (m : Mat α)
    (h1 : m.length ≠ 0) (h2 : (m.headD []).length ≠ 0) :
    ∀ r ∈ transpose m, r.length = m.length := by
  rw [transpose_of_nonempty m h1 h2]
  intro r hr
  obtain ⟨j, _, rfl⟩ := List.mem_map.mp hr
  rw [List.length_map, List.length_range]

theorem ent_transpose {α : Type} [Zero α] (m : Mat α) (i j : ℕ)
    (hi : i < m.length) (hj : j < (m.headD []).length) :
    ent (transpose m) j i = ent m i j := by
  rw [transpose_of_nonempty m (by omega) (by omega),
    ent_map_range _ _ _ _ hj, getD_map_range _ _ _ _ hi]

theorem transpose_head_length {α : Type} [Zero α] (A : Mat α)
    (hR : A.length ≠ 0) (hC : (A.headD []).length ≠ 0) :
    ((transpose A).headD []).length = A.length := by
  rw [transpose_of_nonempty A hR hC, headD_map_range _ _ _ hC]
  simp

theorem matrix_multiply_of_fit {α : Type} [Zero α] [Add α] [Mul α]
    (a b : Mat α) (ha : a.length ≠ 0) (hb : b.length ≠ 0)
    (hdim : (a.headD []).length = b.length) :
    matrix_multiply a b = (List.range a.length).map fun i =>
      (List.range (b.headD []).length).map fun j =>
        ((List.range (a.headD []).length).map fun k =>
          ent a i k * ent b k j).sum := by
  unfold matrix_multiply
  rw [if_neg (by push_neg; exact ⟨ha, hb⟩), if_neg (by push_neg; exact hdim)]

theorem list_sum_range {M : Type} [AddCommMonoid M] (f : ℕ → M) (n : ℕ) :
    ((List.range n).map f).sum = ∑ k ∈ Finset.range n, f k := by
  induction n with
  | zero => simp
  | succ n ih =>
    rw [List.range_succ, List.map_append, List.sum_append, Finset.sum_range_succ, ih]
    simp

theorem rect_row_length {α : Type} (m : Mat α) (hm : Rect m) (i : ℕ)
    (hi : i < m.length) : (m.getD i []).length = (m.headD []).length := by
  apply hm
  rw [List.getD_eq_getElem?_getD, List.getElem?_eq_getElem hi]
  exact List.getElem_mem hi

example : transpose ([[1,2,3],[4,5,6]] : Mat ℤ) = [[1,4],[2,5],[3,6]] := by decide

example : matrix_multiply ([[1,2],[3,4]] : Mat ℤ) [[5,6],[7,8]] = [[19,22],[43,50]] := by decide

example : matrix_multiply ([[1]] : Mat ℤ) [[]] = [[]] := by decide

example : transpose (transpose ([[]] : Mat ℤ)) = [] := by decide

example : compute_eigenvalues (fun _ => []) ([] : Mat ℝ) = .error .indexError := rfl

example : one_norm ([] : Mat ℚ) = .error .emptyMaxError := rfl

/-! ### Claim C5 -/

/-- C5 counterexample: the claim says `compute_eigenvalues` returns the
eigenvalues without raising for every square matrix including the 0×0 empty
matrix, but on `[]` the numpy shape tuple is `(0,)` and the squareness check
itself raises an `IndexError`. -/
theorem compute_eigenvalues_empty_raises :
    ([] : Mat ℝ).length = (([] : Mat ℝ).headD []).length ∧
    compute_eigenvalues (fun _ => []) ([] : Mat ℝ) = Except.error PyErr.indexError :=
  ⟨rfl, rfl⟩

/-- C5 (amended): `compute_eigenvalues` raises the "matrix must be square"
`ShapeError` exactly when the row count differs from the column count; every
non-empty square matrix yields the solver's eigenvalues without error; the 0×0
empty matrix instead raises an `IndexError`, because the numpy shape of the
empty array is one-dimensional. -/
theorem compute_eigenvalues_shape_check (solver : Mat ℝ → List ℝ) (m : Mat ℝ) :
    (compute_eigenvalues solver m = Except.error PyErr.shapeError ↔
      m.length ≠ (m.headD []).length) ∧
    (m ≠ [] → m.length = (m.headD []).length →
      compute_eigenvalues solver m = Except.ok (solver m)) ∧
    (m = [] → compute_eigenvalues solver m = Except.error PyErr.indexError) := by
  unfold compute_eigenvalues
  rcases m with _ | ⟨r, rest⟩
  · simp
  · have hlen : (r :: rest).length ≠ 0 := by simp
    rw [if_neg hlen]
    by_cases h : (r :: rest).length = ((r :: rest).headD []).length
    · rw [if_pos h]
      simp [h]
    · rw [if_neg h]
      simp only [List.length_cons, List.headD_cons] at h
      simp [h]

/-- C5 witness: a 1×2 rectangular matrix raises the `ShapeError`, a 2×2 square
matrix succeeds. -/
theorem compute_eigenvalues_shape_check_witness :
    compute_eigenvalues (fun _ => [0]) ([[1,2],[3,4]] : Mat ℝ) = Except.ok [0] ∧
    compute_eigenvalues (fun _ => [0]) ([[1,2]] : Mat ℝ) = Except.error PyErr.shapeError := by
  constructor
  · exact (compute_eigenvalues_shape_check (fun _ => [0]) [[1,2],[3,4]]).2.1
      (by simp) (by simp)
  · exact (compute_eigenvalues_shape_check (fun _ => [0]) [[1,2]]).1.mpr (by simp)

/-! ### Claim C4 -/

/-- C4 counterexample: on the empty matrix the pipeline does produce the empty
Gram matrix, but `compute_eigenvalues` then raises an `IndexError` instead of
degrading gracefully. -/
theorem two_norm_empty_raises :
    matrix_multiply (transpose ([] : Mat ℝ)) [] = [] ∧
    two_norm (fun _ => []) ([] : Mat ℝ) = Except.error PyErr.indexError :=
  ⟨rfl, rfl⟩

/-- C4 (amended): on the empty matrix the pipeline produces the empty (0×0)
Gram matrix, but it does not degrade gracefully: `compute_eigenvalues` raises
an `IndexError` on the empty Gram matrix (the numpy shape of the empty array
is one-dimensional, so the squareness check itself fails), and `two_norm`
propagates that error. -/
theorem two_norm_empty_error_path (solver : Mat ℝ → List ℝ) :
    transpose ([] : Mat ℝ) = [] ∧
    matrix_multiply (transpose ([] : Mat ℝ)) [] = [] ∧
    compute_eigenvalues solver (matrix_multiply (transpose ([] : Mat ℝ)) []) =
      Except.error PyErr.indexError ∧
    two_norm solver ([] : Mat ℝ) = Except.error PyErr.indexError :=
  ⟨rfl, rfl, rfl, rfl⟩

/-! ### Claim C6 -/

/-- C6 counterexample: `[[]]` has a zero-length first row, so it is the
canonical empty matrix of the data model, yet
`matrix_multiply([[1]], [[]])` returns `[[]]` (one zero-length row), not the
literal empty matrix `[]`. -/
theorem matrix_multiply_empty_not_nil :
    matrix_multiply ([[1]] : Mat ℤ) [[]] = [[]] ∧ ([[]] : Mat ℤ) ≠ [] := by
  decide

/-- C6 (amended): `matrix_multiply` returns `[]` whenever either input has
zero rows and whenever the inner dimensions (first row length of the first
input vs row count of the second) mismatch — which covers a first input with a
zero-length first row, since a non-empty second input has at least one row.
But when the second input's first row has zero length and the inner dimensions
match, the result is a list of first-input-row-count zero-length rows (an
empty matrix in the canonical sense), not the literal `[]`. -/
theorem matrix_multiply_empty_policy {α : Type} [Zero α] [Add α] [Mul α]
    (a b : Mat α) :
    (a.length = 0 → matrix_multiply a b = []) ∧
    (b.length = 0 → matrix_multiply a b = []) ∧
    ((a.headD []).length ≠ b.length → matrix_multiply a b = []) ∧
    (a.length ≠ 0 → b.length ≠ 0 → (a.headD []).length = b.length →
      (b.headD []).length = 0 →
      matrix_multiply a b = List.replicate a.length []) := by
  refine ⟨?_, ?_, ?_, ?_⟩
  · intro h
    unfold matrix_multiply
    rw [if_pos (Or.inl h)]
  · intro h
    unfold matrix_multiply
    rw [if_pos (Or.inr h)]
  · intro h
    unfold matrix_multiply
    by_cases he : a.length = 0 ∨ b.length = 0
    · rw [if_pos he]
    · rw [if_neg he, if_pos h]
  · intro ha hb hdim hc
    rw [matrix_multiply_of_fit a b ha hb hdim, hc]
    simp [List.map_const']

/-- C6 witness: zero-row inputs and mismatched inner dimensions yield `[]`;
`[[1]] × [[]]` yields one empty row. -/
theorem matrix_multiply_empty_policy_witness :
    matrix_multiply ([] : Mat ℤ) [[1]] = [] ∧
    matrix_multiply ([[1,2]] : Mat ℤ) [[3]] = [] ∧
    matrix_multiply ([[1]] : Mat ℤ) [[]] = List.replicate 1 [] := by
  refine ⟨(matrix_multiply_empty_policy [] [[1]]).1 rfl,
    (matrix_multiply_empty_policy [[1,2]] [[3]]).2.2.1 (by decide),
    (matrix_multiply_empty_policy [[1]] [[]]).2.2.2 (by decide) (by decide)
      (by decide) (by decide)⟩

/-! ### Claim C7 -/

theorem getD_of_lt {β : Type} (l : List β) (i : ℕ) (d : β) (h : i < l.length) :
    l.getD i d = l[i] := by
  rw [List.getD_eq_getElem?_getD, List.getElem?_eq_getElem h]
  rfl

/-- C7 counterexample: `[[]]` is rectangular (its single row has length zero),
but `transpose(transpose([[]]))` is `[]`, not `[[]]`. -/
theorem transpose_transpose_degenerate :
    Rect ([[]] : Mat ℤ) ∧ transpose (transpose ([[]] : Mat ℤ)) ≠ [[]] := by
  decide

/-- C7 (amended): `transpose(transpose(A)) == A` for every rectangular `A`
that is either `[]` or has a non-zero number of columns; a rectangular matrix
with one or more rows all of length zero instead collapses to `[]` after the
first transpose, so the double transpose returns `[]`, not `A`. -/
theorem transpose_transpose (A : Mat ℚ) (hA : Rect A) :
    ((A = [] ∨ (A.headD []).length ≠ 0) → transpose (transpose A) = A) ∧
    (A ≠ [] → (A.headD []).length = 0 → transpose (transpose A) = []) := by
  constructor
  · rintro (rfl | hC)
    · rfl
    · rcases eq_or_ne A [] with rfl | hne
      · rfl
      · have hR : A.length ≠ 0 := by simpa [List.length_eq_zero] using hne
        have h1 := transpose_of_nonempty A hR hC
        have hTlen : (transpose A).length = (A.headD []).length :=
          transpose_length A hR hC
        have hThead : ((transpose A).headD []).length = A.length := by
          rw [h1, headD_map_range _ _ _ hC]
          simp
        rw [transpose_of_nonempty (transpose A)
          (by rw [hTlen]; exact hC) (by rw [hThead]; exact hR), hThead, hTlen]
        apply List.ext_getElem
        · simp
        · intro n hn1 hn2
          simp only [List.getElem_map, List.getElem_range]
          have hn : n < A.length := by simpa using hn1
          have hrow : (A.getD n []).length = (A.headD []).length :=
            rect_row_length A hA n hn
          apply List.ext_getElem
          · rw [getD_of_lt A n [] hn] at hrow
            simp [hrow]
          · intro i hi1 hi2
            have hiC : i < (A.headD []).length := by simpa using hi1
            simp only [List.getElem_map, List.getElem_range]
            rw [ent_transpose A n i hn hiC]
            unfold ent
            rw [getD_of_lt A n [] hn, getD_of_lt]
  · intro _hne h0
    rw [transpose_empty (transpose A) (Or.inl (by
      rw [transpose_empty A (Or.inr h0)]
      rfl))]

/-- C7 witness: the involution holds on a concrete rectangular 3×2 matrix and
on `[]`, and the degenerate all-zero-length-rows case collapses to `[]`. -/
theorem transpose_transpose_witness :
    transpose (transpose ([[1,2],[3,4],[5,6]] : Mat ℚ)) = [[1,2],[3,4],[5,6]] ∧
    transpose (transpose ([] : Mat ℚ)) = [] ∧
    transpose (transpose ([[],[]] : Mat ℚ)) = [] := by
  refine ⟨(transpose_transpose [[1,2],[3,4],[5,6]] (by decide)).1 (by decide),
    (transpose_transpose [] (by decide)).1 (Or.inl rfl),
    (transpose_transpose [[],[]] (by decide)).2 (by decide) (by decide)⟩

/-! ### Claim C9 -/

/-- C9 (confirmed): `transpose` returns `[]` when the input has zero rows or a
zero-length first row, regardless of the other rows' shapes; otherwise, for a
non-empty input with non-empty first row it returns a C×R matrix whose entry
at row `j`, column `i` is the input's entry at row `i`, column `j`; and
`transpose([[1,2,3],[4,5,6]]) = [[1,4],[2,5],[3,6]]`. -/
theorem transpose_spec (A : Mat ℚ) :
    ((A.length = 0 ∨ (A.headD []).length = 0) → transpose A = []) ∧
    (A ≠ [] → (A.headD []).length ≠ 0 →
      (transpose A).length = (A.headD []).length ∧
      (∀ r ∈ transpose A, r.length = A.length) ∧
      ∀ i j, i < A.length → j < (A.headD []).length →
        ent (transpose A) j i = ent A i j) ∧
    transpose ([[1,2,3],[4,5,6]] : Mat ℤ) = [[1,4],[2,5],[3,6]] := by
  refine ⟨transpose_empty A, fun hne hC => ?_, by decide⟩
  have hR : A.length ≠ 0 := by simpa [List.length_eq_zero] using hne
  exact ⟨transpose_length A hR hC, transpose_row_length A hR hC,
    fun i j hi hj => ent_transpose A i j hi hj⟩

/-- C9 witness: the specification instantiated at `[[1,2],[3,4],[5,6]]` and at
the degenerate inputs `[]` and `[[],[]]`. -/
theorem transpose_spec_witness :
    transpose ([[],[]] : Mat ℚ) = [] ∧
    (transpose ([[1,2],[3,4],[5,6]] : Mat ℚ)).length =
      (([[1,2],[3,4],[5,6]] : Mat ℚ).headD []).length ∧
    (∀ r ∈ transpose ([[1,2],[3,4],[5,6]] : Mat ℚ),
      r.length = ([[1,2],[3,4],[5,6]] : Mat ℚ).length) ∧
    ∀ i j, i < ([[1,2],[3,4],[5,6]] : Mat ℚ).length →
      j < (([[1,2],[3,4],[5,6]] : Mat ℚ).headD []).length →
      ent (transpose ([[1,2],[3,4],[5,6]] : Mat ℚ)) j i =
        ent ([[1,2],[3,4],[5,6]] : Mat ℚ) i j := by
  have h := (transpose_spec ([[1,2],[3,4],[5,6]] : Mat ℚ)).2.1
    (by decide) (by decide)
  exact ⟨(transpose_spec ([[],[]] : Mat ℚ)).1 (by decide), h.1, h.2.1, h.2.2⟩

/-! ### Claim C8 -/

/-- C8 (confirmed): for non-empty matrices with matching inner dimensions,
`matrix_multiply(a, b)` is the R1×C2 matrix whose entry at row `i`, column
`j` is `Σ_k a[i][k] * b[k][j]`; and
`matrix_multiply([[1,2],[3,4]], [[5,6],[7,8]]) = [[19,22],[43,50]]`. -/
theorem matrix_multiply_spec {α : Type} [NonUnitalNonAssocSemiring α]
    (a b : Mat α) (_ha : Rect a) (_hb : Rect b) (hna : a ≠ []) (hnb : b ≠ [])
    (hdim : (a.headD []).length = b.length) :
    (matrix_multiply a b).length = a.length ∧
    (∀ r ∈ matrix_multiply a b, r.length = (b.headD []).length) ∧
    (∀ i j, i < a.length → j < (b.headD []).length →
      ent (matrix_multiply a b) i j =
        ∑ k ∈ Finset.range (a.headD []).length, ent a i k * ent b k j) ∧
    matrix_multiply ([[1,2],[3,4]] : Mat ℤ) [[5,6],[7,8]] = [[19,22],[43,50]] := by
  have hna' : a.length ≠ 0 := by simpa [List.length_eq_zero] using hna
  have hnb' : b.length ≠ 0 := by simpa [List.length_eq_zero] using hnb
  have hfit := matrix_multiply_of_fit a b hna' hnb' hdim
  refine ⟨?_, ?_, ?_, by decide⟩
  · rw [hfit]; simp
  · rw [hfit]
    intro r hr
    obtain ⟨i, _, rfl⟩ := List.mem_map.mp hr
    simp
  · intro i j hi hj
    rw [hfit, ent_map_range _ _ _ _ hi, getD_map_range _ _ _ _ hj,
      list_sum_range]

/-- C8 witness: the specification instantiated at the scenario pair from the
spec. -/
theorem matrix_multiply_spec_witness :
    (matrix_multiply ([[1,2],[3,4]] : Mat ℤ) [[5,6],[7,8]]).length =
      ([[1,2],[3,4]] : Mat ℤ).length ∧
    (∀ r ∈ matrix_multiply ([[1,2],[3,4]] : Mat ℤ) [[5,6],[7,8]],
      r.length = (([[5,6],[7,8]] : Mat ℤ).headD []).length) ∧
    (∀ i j, i < ([[1,2],[3,4]] : Mat ℤ).length →
      j < (([[5,6],[7,8]] : Mat ℤ).headD []).length →
      ent (matrix_multiply ([[1,2],[3,4]] : Mat ℤ) [[5,6],[7,8]]) i j =
        ∑ k ∈ Finset.range (([[1,2],[3,4]] : Mat ℤ).headD []).length,
          ent ([[1,2],[3,4]] : Mat ℤ) i k * ent ([[5,6],[7,8]] : Mat ℤ) k j) ∧
    matrix_multiply ([[1,2],[3,4]] : Mat ℤ) [[5,6],[7,8]] = [[19,22],[43,50]] :=
  matrix_multiply_spec [[1,2],[3,4]] [[5,6],[7,8]]
    (by decide) (by decide) (by decide) (by decide) (by decide)

/-! ### Claim C10 -/

/-- C10 (confirmed): on an empty matrix (zero rows or a zero-length first row,
under the rectangularity invariant of the data model), `column_sums` and
`row_sums` return the empty sequence, and `one_norm`, `infinity_norm` and
`max_norm` all fail with the `max()`-of-empty-sequence `ValueError` instead of
returning a value. -/
theorem norms_empty_input (m : Mat ℝ) (hrect : Rect m)
    (h : m.length = 0 ∨ (m.headD []).length = 0) :
    column_sums m = [] ∧ row_sums m = [] ∧
    one_norm m = Except.error PyErr.emptyMaxError ∧
    infinity_norm m = Except.error PyErr.emptyMaxError ∧
    max_norm m = Except.error PyErr.emptyMaxError := by
  have hcs : column_sums m = [] := if_pos h
  have hrs : row_sums m = [] := if_pos h
  have hfl : m.flatten = [] := by
    rw [List.flatten_eq_nil_iff]
    intro r hr
    rcases h with h | h
    · rw [List.length_eq_zero] at h
      subst h
      simp at hr
    · have := hrect r hr
      rw [h] at this
      exact List.length_eq_zero.mp this
  refine ⟨hcs, hrs, ?_, ?_, ?_⟩
  · unfold one_norm
    rw [hcs]
    rfl
  · unfold infinity_norm
    rw [hrs]
    rfl
  · unfold max_norm
    rw [hfl]
    rfl

/-- C10 witness: the three norms fail on `[]` and on `[[],[]]`. -/
theorem norms_empty_input_witness :
    one_norm ([] : Mat ℝ) = Except.error PyErr.emptyMaxError ∧
    max_norm ([] : Mat ℝ) = Except.error PyErr.emptyMaxError ∧
    one_norm ([[],[]] : Mat ℝ) = Except.error PyErr.emptyMaxError ∧
    infinity_norm ([[],[]] : Mat ℝ) = Except.error PyErr.emptyMaxError ∧
    max_norm ([[],[]] : Mat ℝ) = Except.error PyErr.emptyMaxError := by
  have h1 := norms_empty_input [] (by decide) (by decide)
  have h2 := norms_empty_input [[],[]] (by decide) (by decide)
  exact ⟨h1.2.2.1, h1.2.2.2.2, h2.2.2.1, h2.2.2.2.1, h2.2.2.2.2⟩

/-! ### Claim C3 -/

theorem headD_mem {β : Type} (l : List β) (d : β) (h : l ≠ []) :
    l.headD d ∈ l := by
  cases l with
  | nil => exact absurd rfl h
  | cons x xs => simp

/-- Once `compute_eigenvalues` has succeeded, `two_norm` is the max-abs-sqrt
reduction of the returned eigenvalue list. -/
theorem two_norm_of_eigenvalues (solver : Mat ℝ → List ℝ) (A : Mat ℝ)
    (ev : List ℝ)
    (hce : compute_eigenvalues solver (matrix_multiply (transpose A) A) =
      Except.ok ev) :
    two_norm solver A = (match listMax (ev.map fun x => |x|) with
      | none => Except.error PyErr.emptyMaxError
      | some m => Except.ok (Real.sqrt m)) := by
  unfold two_norm
  simp only [hce]

theorem gram_length_eq (A : Mat ℝ) (hne : A ≠ [])
    (hC : (A.headD []).length ≠ 0) :
    (matrix_multiply (transpose A) A).length = (A.headD []).length := by
  have hR : A.length ≠ 0 := by simpa [List.length_eq_zero] using hne
  rw [matrix_multiply_of_fit (transpose A) A
    (by rw [transpose_length A hR hC]; exact hC) hR
    (transpose_head_length A hR hC),
    List.length_map, List.length_range, transpose_length A hR hC]

theorem gram_rows_eq (A : Mat ℝ) (hne : A ≠ [])
    (hC : (A.headD []).length ≠ 0) :
    ∀ r ∈ matrix_multiply (transpose A) A, r.length = (A.headD []).length := by
  have hR : A.length ≠ 0 := by simpa [List.length_eq_zero] using hne
  rw [matrix_multiply_of_fit (transpose A) A
    (by rw [transpose_length A hR hC]; exact hC) hR
    (transpose_head_length A hR hC)]
  intro r hr
  obtain ⟨i, _, rfl⟩ := List.mem_map.mp hr
  simp

theorem gram_compute_ok (solver : Mat ℝ → List ℝ) (A : Mat ℝ) (hne : A ≠ [])
    (hC : (A.headD []).length ≠ 0) :
    compute_eigenvalues solver (matrix_multiply (transpose A) A) =
      Except.ok (solver (matrix_multiply (transpose A) A)) := by
  have hGlen := gram_length_eq A hne hC
  have hGne : matrix_multiply (transpose A) A ≠ [] := by
    intro hnil
    rw [hnil] at hGlen
    exact hC hGlen.symm
  have hGhead : ((matrix_multiply (transpose A) A).headD []).length =
      (A.headD []).length :=
    gram_rows_eq A hne hC _ (headD_mem _ _ hGne)
  unfold compute_eigenvalues
  rw [if_neg (by rw [hGlen]; exact hC), if_pos (by rw [hGlen, hGhead])]

/-- C3 (confirmed): for a non-empty rectangular R×C matrix the Gram matrix
`matrix_multiply(transpose(matrix), matrix)` is square C×C even when R ≠ C,
`compute_eigenvalues` accepts it, and `two_norm` never fails with the
`ShapeError`. -/
theorem gram_always_square (solver : Mat ℝ → List ℝ) (A : Mat ℝ)
    (_hrect : Rect A) (hne : A ≠ []) (hC : (A.headD []).length ≠ 0) :
    (matrix_multiply (transpose A) A).length = (A.headD []).length ∧
    (∀ r ∈ matrix_multiply (transpose A) A,
      r.length = (A.headD []).length) ∧
    compute_eigenvalues solver (matrix_multiply (transpose A) A) =
      Except.ok (solver (matrix_multiply (transpose A) A)) ∧
    two_norm solver A ≠ Except.error PyErr.shapeError := by
  have hce := gram_compute_ok solver A hne hC
  refine ⟨gram_length_eq A hne hC, gram_rows_eq A hne hC, hce, ?_⟩
  rw [two_norm_of_eigenvalues solver A _ hce]
  cases hmax : listMax ((solver (matrix_multiply (transpose A) A)).map
      fun x => |x|) with
  | none => simp
  | some m => simp

/-- C3 witness: a 3×2 rectangular (non-square) matrix passes through the
pipeline without a `ShapeError`. -/
theorem gram_always_square_witness :
    (matrix_multiply (transpose ([[1,2],[3,4],[5,6]] : Mat ℝ))
      [[1,2],[3,4],[5,6]]).length =
      (([[1,2],[3,4],[5,6]] : Mat ℝ).headD []).length ∧
    (∀ r ∈ matrix_multiply (transpose ([[1,2],[3,4],[5,6]] : Mat ℝ))
      [[1,2],[3,4],[5,6]],
      r.length = (([[1,2],[3,4],[5,6]] : Mat ℝ).headD []).length) ∧
    compute_eigenvalues (fun _ => [0]) (matrix_multiply
      (transpose ([[1,2],[3,4],[5,6]] : Mat ℝ)) [[1,2],[3,4],[5,6]]) =
      Except.ok ((fun _ => [0]) (matrix_multiply
        (transpose ([[1,2],[3,4],[5,6]] : Mat ℝ)) [[1,2],[3,4],[5,6]])) ∧
    two_norm (fun _ => [0]) ([[1,2],[3,4],[5,6]] : Mat ℝ) ≠
      Except.error PyErr.shapeError :=
  gram_always_square (fun _ => [0]) [[1,2],[3,4],[5,6]]
    (by simp [Rect]) (by simp) (by simp)

/-! ### Claim C1 -/

/-- A stand-in for the external numpy eigenvalue routine on the single Gram
matrix `[[10,14],[14,20]]`, whose true eigenvalues are `15 ± √221`. -/
noncomputable def sampleSolver : Mat ℝ → List ℝ :=
  fun _ => [15 - Real.sqrt 221, 15 + Real.sqrt 221]

/-- C1 (confirmed): `two_norm([[1,2],[3,4]])` follows the pipeline
transpose → Gram product `[[10,14],[14,20]]` → eigenvalues (the roots of the
characteristic determinant, `15 ± √221`) → square root of the max absolute
eigenvalue, and the result `√(15 + √221)` is within `1e-9` of
`5.464985704219043`.  The external eigenvalue routine is modelled by the
hypothesis that the `solver` returns exactly those roots on the Gram
matrix. -/
theorem two_norm_pipeline_example (solver : Mat ℝ → List ℝ)
    (hmem : (15 + Real.sqrt 221) ∈
      solver (matrix_multiply (transpose ([[1,2],[3,4]] : Mat ℝ)) [[1,2],[3,4]]))
    (hall : ∀ x ∈
      solver (matrix_multiply (transpose ([[1,2],[3,4]] : Mat ℝ)) [[1,2],[3,4]]),
      x = 15 - Real.sqrt 221 ∨ x = 15 + Real.sqrt 221) :
    transpose ([[1,2],[3,4]] : Mat ℝ) = [[1,3],[2,4]] ∧
    matrix_multiply (transpose ([[1,2],[3,4]] : Mat ℝ)) [[1,2],[3,4]] =
      [[10,14],[14,20]] ∧
    (∀ lam : ℝ, (lam = 15 - Real.sqrt 221 ∨ lam = 15 + Real.sqrt 221) →
      (10 - lam) * (20 - lam) - 14 * 14 = 0) ∧
    two_norm solver [[1,2],[3,4]] = Except.ok (Real.sqrt (15 + Real.sqrt 221)) ∧
    |Real.sqrt (15 + Real.sqrt 221) - 5.464985704219043| ≤ 1e-9 := by
  have hs0 : (0:ℝ) ≤ Real.sqrt 221 := Real.sqrt_nonneg _
  have hs15 : Real.sqrt 221 ≤ 15 :=
    (Real.sqrt_le_left (by norm_num)).mpr (by norm_num)
  have hGram : matrix_multiply (transpose ([[1,2],[3,4]] : Mat ℝ)) [[1,2],[3,4]] =
      [[10,14],[14,20]] := by
    have h0 : matrix_multiply (transpose ([[1,2],[3,4]] : Mat ℝ)) [[1,2],[3,4]] =
        [[1*1+(3*3+0), 1*2+(3*4+0)], [2*1+(4*3+0), 2*2+(4*4+0)]] := rfl
    rw [h0]
    norm_num
  refine ⟨rfl, hGram, ?_, ?_, ?_⟩
  · rintro lam (rfl | rfl) <;>
      nlinarith [Real.sq_sqrt (show (0:ℝ) ≤ 221 by norm_num)]
  · have hne : solver (matrix_multiply (transpose ([[1,2],[3,4]] : Mat ℝ))
        [[1,2],[3,4]]) ≠ [] := List.ne_nil_of_mem hmem
    have hmapne : (solver (matrix_multiply (transpose ([[1,2],[3,4]] : Mat ℝ))
        [[1,2],[3,4]])).map (fun x => |x|) ≠ [] :=
      List.ne_nil_of_mem (List.mem_map_of_mem _ hmem)
    obtain ⟨m, hmx, hmmem, hub⟩ := listMax_spec _ hmapne
    have hm_eq : m = 15 + Real.sqrt 221 := by
      obtain ⟨y, hy, rfl⟩ := List.mem_map.mp hmmem
      have hb_le : |15 + Real.sqrt 221| ≤ |y| :=
        hub _ (List.mem_map_of_mem _ hmem)
      rw [abs_of_nonneg (by linarith)] at hb_le
      rcases hall y hy with rfl | rfl
      · rw [abs_of_nonneg (by linarith)] at hb_le ⊢
        have h221 : (0:ℝ) < Real.sqrt 221 := Real.sqrt_pos.mpr (by norm_num)
        linarith
      · rw [abs_of_nonneg (by linarith)]
    have hce : compute_eigenvalues solver (matrix_multiply
        (transpose ([[1,2],[3,4]] : Mat ℝ)) [[1,2],[3,4]]) =
        Except.ok (solver (matrix_multiply
          (transpose ([[1,2],[3,4]] : Mat ℝ)) [[1,2],[3,4]])) := by
      have hgen : ∀ l : Mat ℝ, l = [[10,14],[14,20]] →
          compute_eigenvalues solver l = Except.ok (solver l) := by
        rintro l rfl
        rfl
      exact hgen _ hGram
    rw [two_norm_of_eigenvalues solver [[1,2],[3,4]] _ hce, hmx, hm_eq]
  · have hup : Real.sqrt (15 + Real.sqrt 221) ≤ 5.464985704219043 + 1e-9 := by
      have h1 : Real.sqrt 221 ≤ (5.464985704219043 + 1e-9 : ℝ)^2 - 15 :=
        (Real.sqrt_le_left (by norm_num)).mpr (by norm_num)
      exact (Real.sqrt_le_left (by norm_num)).mpr (by linarith)
    have hlo : (5.464985704219043 - 1e-9 : ℝ) ≤ Real.sqrt (15 + Real.sqrt 221) := by
      have h2 : ((5.464985704219043 - 1e-9 : ℝ)^2 - 15) ≤ Real.sqrt 221 :=
        Real.le_sqrt_of_sq_le (by norm_num)
      exact Real.le_sqrt_of_sq_le (by linarith)
    rw [abs_le]
    constructor <;> linarith

/-- C1 witness: with the stand-in solver that returns `15 ± √221` on every
input, the pipeline produces `√(15 + √221)` for `[[1,2],[3,4]]`, within
`1e-9` of the documented value. -/
theorem two_norm_pipeline_example_witness :
    two_norm sampleSolver [[1,2],[3,4]] =
      Except.ok (Real.sqrt (15 + Real.sqrt 221)) ∧
    |Real.sqrt (15 + Real.sqrt 221) - 5.464985704219043| ≤ 1e-9 := by
  have h := two_norm_pipeline_example sampleSolver
    (by simp [sampleSolver])
    (by intro x hx; simpa [sampleSolver] using hx)
  exact ⟨h.2.2.2.1, h.2.2.2.2⟩

/-! ### Claim C2: infrastructure -/

/-- The n×n all-zero matrix. -/
def zeroMatrix (n : ℕ) : Mat ℝ :=
  List.replicate n (List.replicate n 0)

/-- All entries of the matrix are zero. -/
def AllZero (m : Mat ℝ) : Prop :=
  ∀ r ∈ m, ∀ x ∈ r, x = 0

/-- The list-of-lists matrix carrying the entries of a Mathlib square
matrix. -/
def ofMatrix {n : ℕ} (M : Matrix (Fin n) (Fin n) ℝ) : Mat ℝ :=
  (List.range n).map fun i => (List.range n).map fun j =>
    if hi : i < n then if hj : j < n then M ⟨i, hi⟩ ⟨j, hj⟩ else 0 else 0

/-- The Mathlib matrix carrying the in-bounds entries of a list-of-lists
matrix. -/
def entMatrix (A : Mat ℝ) : Matrix (Fin A.length) (Fin (A.headD []).length) ℝ :=
  Matrix.of fun k i => ent A k.1 i.1

/-- The contract of the external numpy eigenvalue routine: on a Hermitian
matrix it returns the full multiset of eigenvalues (with algebraic
multiplicity).  `two_norm` only ever consumes it on Gram matrices, which are
real symmetric. -/
def specSolver (solver : Mat ℝ → List ℝ) : Prop :=
  ∀ (n : ℕ) (M : Matrix (Fin n) (Fin n) ℝ) (hM : M.IsHermitian),
    ((solver (ofMatrix M) : List ℝ) : Multiset ℝ) =
      Finset.univ.val.map hM.eigenvalues

theorem ofMatrix_length {n : ℕ} (M : Matrix (Fin n) (Fin n) ℝ) :
    (ofMatrix M).length = n := by
  simp [ofMatrix]

theorem ent_ofMatrix {n : ℕ} (M : Matrix (Fin n) (Fin n) ℝ) (i j : ℕ)
    (hi : i < n) (hj : j < n) :
    ent (ofMatrix M) i j = M ⟨i, hi⟩ ⟨j, hj⟩ := by
  unfold ofMatrix
  rw [ent_map_range _ _ _ _ hi, getD_map_range _ _ _ _ hj, dif_pos hi,
    dif_pos hj]

theorem ofMatrix_inj {n : ℕ} (M M' : Matrix (Fin n) (Fin n) ℝ)
    (h : ofMatrix M = ofMatrix M') : M = M' := by
  ext ⟨i, hi⟩ ⟨j, hj⟩
  rw [← ent_ofMatrix M i j hi hj, ← ent_ofMatrix M' i j hi hj, h]

theorem ent_eq_getElem {α : Type} [Zero α] (m : Mat α) (i j : ℕ)
    (hj : j < (m.getD i []).length) :
    ent m i j = (m.getD i [])[j] :=
  getD_of_lt (m.getD i []) j 0 hj

/-- The list Gram matrix of the pipeline is exactly the Mathlib matrix
`Matrix.transpose (entMatrix A) * entMatrix A` rendered back as a list of lists. -/
theorem gram_eq_ofMatrix (A : Mat ℝ) (hne : A ≠ [])
    (hC : (A.headD []).length ≠ 0) :
    matrix_multiply (transpose A) A =
      ofMatrix (Matrix.transpose (entMatrix A) * entMatrix A) := by
  have hR : A.length ≠ 0 := by simpa [List.length_eq_zero] using hne
  rw [matrix_multiply_of_fit (transpose A) A
    (by rw [transpose_length A hR hC]; exact hC) hR
    (transpose_head_length A hR hC),
    transpose_length A hR hC, transpose_head_length A hR hC]
  unfold ofMatrix
  apply List.map_congr_left
  intro i hi
  rw [List.mem_range] at hi
  apply List.map_congr_left
  intro j hj
  rw [List.mem_range] at hj
  rw [dif_pos hi, dif_pos hj, Matrix.mul_apply]
  have hcongr : ((List.range A.length).map fun k =>
      ent (transpose A) i k * ent A k j).sum =
      ((List.range A.length).map fun k => ent A k i * ent A k j).sum := by
    congr 1
    apply List.map_congr_left
    intro k hk
    rw [List.mem_range] at hk
    rw [ent_transpose A k i hk hi]
  rw [hcongr, list_sum_range,
    ← Fin.sum_univ_eq_sum_range (fun k => ent A k i * ent A k j) A.length]
  simp only [entMatrix, Matrix.transpose_apply, Matrix.of_apply]

theorem gram_isHermitian (A : Mat ℝ) :
    (Matrix.transpose (entMatrix A) * entMatrix A).IsHermitian := by
  have h := Matrix.isHermitian_transpose_mul_self (entMatrix A)
  rwa [Matrix.conjTranspose_eq_transpose_of_trivial] at h

/-- The in-bounds entries of `A` are all zero iff `entMatrix A` is the zero
matrix (for rectangular `A`). -/
theorem entMatrix_eq_zero_iff (A : Mat ℝ) (hrect : Rect A) :
    entMatrix A = 0 ↔ AllZero A := by
  constructor
  · intro h r hr x hx
    obtain ⟨k, hk, rfl⟩ := List.mem_iff_getElem.mp hr
    obtain ⟨i, hi, rfl⟩ := List.mem_iff_getElem.mp hx
    have hgk : A.getD k [] = A[k] := getD_of_lt A k [] hk
    have hiC : i < (A.headD []).length := by
      have hrl := rect_row_length A hrect k hk
      rw [hgk] at hrl
      omega
    have hz := congrFun (congrFun h ⟨k, hk⟩) ⟨i, hiC⟩
    simp only [entMatrix, Matrix.of_apply, Matrix.zero_apply] at hz
    rw [ent_eq_getElem A k i (by rw [hgk]; exact hi)] at hz
    rw [← hz]
    congr 1
    exact hgk.symm
  · intro h
    ext ⟨k, hk⟩ ⟨i, hi⟩
    simp only [entMatrix, Matrix.of_apply, Matrix.zero_apply]
    have hgk : A.getD k [] = A[k] := getD_of_lt A k [] hk
    have hrl := rect_row_length A hrect k hk
    have hik : i < (A.getD k []).length := by omega
    rw [ent_eq_getElem A k i hik]
    exact h _ (by rw [hgk]; exact List.getElem_mem hk) _ (List.getElem_mem _)

/-- A Hermitian matrix that is zero has only zero eigenvalues. -/
theorem eigenvalues_zero_of_zero {n : ℕ} (hn : n ≠ 0)
    (M : Matrix (Fin n) (Fin n) ℝ) (hM : M.IsHermitian) (h0 : M = 0)
    (i : Fin n) : hM.eigenvalues i = 0 := by
  haveI : Nonempty (Fin n) := ⟨⟨0, Nat.pos_of_ne_zero hn⟩⟩
  subst h0
  have hs := hM.eigenvalues_mem_spectrum_real i
  rw [spectrum.zero_eq] at hs
  simpa using hs

/-- A Hermitian matrix whose eigenvalues are all zero is the zero matrix
(unitary diagonalisation). -/
theorem zero_of_eigenvalues_zero {n : ℕ}
    (M : Matrix (Fin n) (Fin n) ℝ) (hM : M.IsHermitian)
    (h : ∀ i, hM.eigenvalues i = 0) : M = 0 := by
  have hd : Matrix.diagonal (RCLike.ofReal ∘ hM.eigenvalues) =
      (0 : Matrix (Fin n) (Fin n) ℝ) := by
    have hfun : RCLike.ofReal ∘ hM.eigenvalues = fun _ : Fin n => (0:ℝ) := by
      funext i
      simp [Function.comp, h i]
    rw [hfun]
    exact Matrix.diagonal_zero
  rw [hM.spectral_theorem, hd, Matrix.mul_zero, Matrix.zero_mul]

theorem zeroMatrix_headD (n : ℕ) (hn : n ≠ 0) :
    (zeroMatrix n).headD [] = List.replicate n 0 := by
  cases n with
  | zero => exact absurd rfl hn
  | succ n => rfl

theorem zeroMatrix_length (n : ℕ) : (zeroMatrix n).length = n := by
  simp [zeroMatrix]

/-- C2 counterexample: the claim covers the all-zero matrix of *any* size, but
for size 0 (the empty matrix) `two_norm` raises an `IndexError` instead of
returning `0.0`. -/
theorem two_norm_zeroMatrix_zero_not_ok :
    two_norm (fun _ => []) (zeroMatrix 0) = Except.error PyErr.indexError ∧
    (Except.error PyErr.indexError : Except PyErr ℝ) ≠ Except.ok 0 :=
  ⟨rfl, fun h => Except.noConfusion h⟩

/-- C2 (amended): assuming the external eigenvalue routine returns the true
eigenvalue multiset on Hermitian matrices, `two_norm` on every non-empty
square matrix succeeds with a non-negative value that is zero exactly for the
all-zero matrix; the n×n zero matrix yields `0.0` for every n ≥ 1; the 0×0
zero matrix (the empty matrix) instead raises an `IndexError`. -/
theorem two_norm_definite (solver : Mat ℝ → List ℝ)
    (hsolver : specSolver solver) :
    (∀ A : Mat ℝ, Rect A → A ≠ [] → A.length = (A.headD []).length →
      ∃ v : ℝ, two_norm solver A = Except.ok v ∧ 0 ≤ v ∧
        (v = 0 ↔ AllZero A)) ∧
    (∀ n : ℕ, n ≠ 0 → two_norm solver (zeroMatrix n) = Except.ok 0) ∧
    (∀ s : Mat ℝ → List ℝ,
      two_norm s (zeroMatrix 0) = Except.error PyErr.indexError) := by
  have hmain : ∀ A : Mat ℝ, Rect A → A ≠ [] →
      A.length = (A.headD []).length →
      ∃ v : ℝ, two_norm solver A = Except.ok v ∧ 0 ≤ v ∧
        (v = 0 ↔ AllZero A) := by
    intro A hrect hne hsq
    have hR : A.length ≠ 0 := by simpa [List.length_eq_zero] using hne
    have hC : (A.headD []).length ≠ 0 := by
      rw [← hsq]
      exact hR
    have hgram := gram_eq_ofMatrix A hne hC
    have hherm := gram_isHermitian A
    have hsol := hsolver (A.headD []).length
      (Matrix.transpose (entMatrix A) * entMatrix A) hherm
    rw [← hgram] at hsol
    have hlen : (solver (matrix_multiply (transpose A) A)).length =
        (A.headD []).length := by
      have hcard := congrArg Multiset.card hsol
      rw [Multiset.coe_card, Multiset.card_map] at hcard
      rw [hcard]
      exact Finset.card_fin _
    have hev_ne : solver (matrix_multiply (transpose A) A) ≠ [] := by
      intro h0
      rw [h0] at hlen
      exact hC (by simpa using hlen.symm)
    have hmem_iff : ∀ x : ℝ, x ∈ solver (matrix_multiply (transpose A) A) ↔
        ∃ i, hherm.eigenvalues i = x := by
      intro x
      constructor
      · intro hx
        have hx' : x ∈ ((solver (matrix_multiply (transpose A) A) : List ℝ) :
            Multiset ℝ) := by simpa using hx
        rw [hsol] at hx'
        obtain ⟨i, _, hix⟩ := Multiset.mem_map.mp hx'
        exact ⟨i, hix⟩
      · rintro ⟨i, rfl⟩
        have hx' : hherm.eigenvalues i ∈
            Finset.univ.val.map hherm.eigenvalues :=
          Multiset.mem_map_of_mem _ (Finset.mem_val.mpr (Finset.mem_univ i))
        rw [← hsol] at hx'
        simpa using hx'
    have hmapne : ((solver (matrix_multiply (transpose A) A)).map
        fun x => |x|) ≠ [] := by
      obtain ⟨y, hy⟩ := List.exists_mem_of_ne_nil _ hev_ne
      exact List.ne_nil_of_mem (List.mem_map_of_mem _ hy)
    obtain ⟨m, hmx, hmmem, hub⟩ := listMax_spec _ hmapne
    obtain ⟨y0, hy0, hy0m⟩ := List.mem_map.mp hmmem
    have hm0 : 0 ≤ m := hy0m ▸ abs_nonneg y0
    have hce := gram_compute_ok solver A hne hC
    refine ⟨Real.sqrt m, ?_, Real.sqrt_nonneg m, ?_⟩
    · rw [two_norm_of_eigenvalues solver A _ hce, hmx]
    · rw [Real.sqrt_eq_zero']
      constructor
      · intro hm_le
        have hmz : m = 0 := le_antisymm hm_le hm0
        have hall : ∀ i, hherm.eigenvalues i = 0 := by
          intro i
          have hmem : hherm.eigenvalues i ∈
              solver (matrix_multiply (transpose A) A) :=
            (hmem_iff _).mpr ⟨i, rfl⟩
          have hle := hub _ (List.mem_map_of_mem _ hmem)
          rw [hmz] at hle
          exact abs_eq_zero.mp (le_antisymm hle (abs_nonneg _))
        have hM0 : Matrix.transpose (entMatrix A) * entMatrix A = 0 :=
          zero_of_eigenvalues_zero _ hherm hall
        have hB0 : entMatrix A = 0 := by
          rw [← Matrix.conjTranspose_eq_transpose_of_trivial (entMatrix A)]
            at hM0
          exact Matrix.conjTranspose_mul_self_eq_zero.mp hM0
        exact (entMatrix_eq_zero_iff A hrect).mp hB0
      · intro hAZ
        have hB0 : entMatrix A = 0 := (entMatrix_eq_zero_iff A hrect).mpr hAZ
        have hM0 : Matrix.transpose (entMatrix A) * entMatrix A = 0 := by
          rw [hB0]
          simp
        obtain ⟨i, hiy⟩ := (hmem_iff y0).mp hy0
        rw [← hy0m, ← hiy, eigenvalues_zero_of_zero hC _ hherm hM0 i]
        simp
  refine ⟨hmain, ?_, fun s => rfl⟩
  intro n hn
  obtain ⟨v, hok, _, hiff⟩ := hmain (zeroMatrix n)
    (by
      intro r hr
      rw [List.eq_of_mem_replicate hr, zeroMatrix_headD n hn])
    (by
      intro h0
      have := congrArg List.length h0
      rw [zeroMatrix_length] at this
      exact hn (by simpa using this))
    (by rw [zeroMatrix_length, zeroMatrix_headD n hn, List.length_replicate])
  have hv : v = 0 := hiff.mpr (by
    intro r hr x hx
    rw [List.eq_of_mem_replicate hr] at hx
    exact List.eq_of_mem_replicate hx)
  rw [hv] at hok
  exact hok

/-- A model of the external eigenvalue routine that satisfies `specSolver`:
on a list matrix that renders some Hermitian matrix it returns that matrix's
eigenvalue list (well-defined because `ofMatrix` is injective). -/
noncomputable def modelSolver (G : Mat ℝ) : List ℝ :=
  @dite _ (∃ l : List ℝ, ∀ (n : ℕ) (M : Matrix (Fin n) (Fin n) ℝ)
      (hM : M.IsHermitian), G = ofMatrix M →
      ((l : List ℝ) : Multiset ℝ) = Finset.univ.val.map hM.eigenvalues)
    (Classical.propDecidable _) (fun h => h.choose) (fun _ => [])

theorem modelSolver_spec : specSolver modelSolver := by
  intro n M hM
  have hex : ∃ l : List ℝ, ∀ (n' : ℕ) (M' : Matrix (Fin n') (Fin n') ℝ)
      (hM' : M'.IsHermitian), ofMatrix M = ofMatrix M' →
      ((l : List ℝ) : Multiset ℝ) = Finset.univ.val.map hM'.eigenvalues := by
    refine ⟨(List.finRange n).map hM.eigenvalues, ?_⟩
    intro n' M' hM' heq
    have hn : n' = n := by
      have hl := congrArg List.length heq
      rw [ofMatrix_length, ofMatrix_length] at hl
      exact hl.symm
    subst hn
    have hMM : M = M' := ofMatrix_inj M M' heq
    subst hMM
    rfl
  unfold modelSolver
  rw [dif_pos hex]
  exact hex.choose_spec n M hM rfl

/-- C2 witness: with the spec-conforming model solver, the 2×2 identity
matrix gets a strictly meaningful norm value (non-negative, zero iff the
matrix is all-zero, which it is not), and the 2×2 zero matrix yields `0.0`. -/
theorem two_norm_definite_witness :
    (∃ v : ℝ, two_norm modelSolver [[1,0],[0,1]] = Except.ok v ∧ 0 ≤ v ∧
      (v = 0 ↔ AllZero [[1,0],[0,1]])) ∧
    two_norm modelSolver (zeroMatrix 2) = Except.ok 0 :=
  ⟨(two_norm_definite modelSolver modelSolver_spec).1 [[1,0],[0,1]]
      (by decide) (by simp) rfl,
    (two_norm_definite modelSolver modelSolver_spec).2.1 2 (by norm_num)⟩

end NumLib
